import Mathlib

/-!
Verification of the LZ4 framing layer of rust-lz-fear.

The frame encoder (`src/compress/framed.rs`) and frame decoder
(`src/decompress/framed.rs`) are embedded shallowly: byte buffers become
`List Nat` (each element a byte value `< 256`), mutable state becomes
explicit state passing, `io::Result` becomes `Except`, and a Rust panic
(out-of-range `Vec::drain`, failed `assert!`) becomes a dedicated error
constructor.  The raw block codec (`compress2`, `decompress_block`), the
header types (`Flags`, `BlockDescriptor`) and the crate constants are
repository code that is not part of the provided sources; they are
modelled from the specification and marked as such in their doc comments.
The external 32-bit streaming hash (`twox_hash::XxHash32`) is outside the
core; only its interface (seeded, incremental write, finish) matters, so
it is modelled by a concrete deterministic accumulator.
-/

namespace LzFear

/-- Modelled from the spec: crate constant `WINDOW_SIZE` — the trailing
64KiB of plaintext retained across dependent blocks. -/
def WINDOW_SIZE : Nat := 64 * 1024

/-- Modelled from the spec: crate constant `MAGIC`, the 4-byte frame magic
number (the standard LZ4 frame magic). -/
def MAGIC : Nat := 0x184D2204

/-- Modelled from the spec: crate constant `INCOMPRESSIBLE`, the top bit of
the 32-bit block length marking a block stored verbatim. -/
def INCOMPRESSIBLE : Nat := 0x80000000

/-- Little-endian serialization of a 32-bit integer, as done by
`write_u32::<LE>`. -/
def u32le (n : Nat) : List Nat :=
  [n % 256, n / 256 % 256, n / 65536 % 256, n / 16777216 % 256]

/-- Little-endian serialization of a 64-bit integer, as done by
`write_u64::<LE>`. -/
def u64le (n : Nat) : List Nat :=
  [n % 256, n / 256 % 256, n / 65536 % 256, n / 16777216 % 256,
   n / 4294967296 % 256, n / 1099511627776 % 256,
   n / 281474976710656 % 256, n / 72057594037927936 % 256]

/-- Reading a little-endian 32-bit integer from the head of a byte stream,
as done by `read_u32::<LE>`; `none` models the underlying reader hitting
end of input (an `io::Error`). -/
def readU32le : List Nat → Option (Nat × List Nat)
  | b0 :: b1 :: b2 :: b3 :: rest =>
      some (b0 + 256 * b1 + 65536 * b2 + 16777216 * b3, rest)
  | _ => none

/-- Reading a little-endian 64-bit integer from the head of a byte stream,
as done by `read_u64::<LE>`. -/
def readU64le : List Nat → Option (Nat × List Nat)
  | b0 :: b1 :: b2 :: b3 :: b4 :: b5 :: b6 :: b7 :: rest =>
      some (b0 + 256 * b1 + 65536 * b2 + 16777216 * b3 + 4294967296 * b4 +
            1099511627776 * b5 + 281474976710656 * b6 +
            72057594037927936 * b7, rest)
  | _ => none

/-- Reading a single byte, as done by `read_u8`. -/
def readU8 : List Nat → Option (Nat × List Nat)
  | b :: rest => some (b, rest)
  | _ => none

/-- Modelled from the spec: the external seeded 32-bit streaming hash
(`XxHash32`) is out of scope and specified only by its interface; any
deterministic accumulator satisfies the properties the core needs, so one
incremental mixing step per byte is used. -/
def hashStep (acc b : Nat) : Nat :=
  (acc * 33 + b + 1) % 4294967296

/-- Modelled from the spec: `XxHash32::with_seed(seed)` followed by `write`
of all the given bytes and `finish`. -/
def xxh32 (seed : Nat) (bytes : List Nat) : Nat :=
  bytes.foldl hashStep seed

/-- The compression settings record from `src/compress/framed.rs`
(`CompressionSettings`), with the borrowed dictionary slice embedded as a
byte list. -/
structure CompressionSettings where
  independent_blocks : Bool
  block_checksums : Bool
  content_checksum : Bool
  block_size : Nat
  dictionary : Option (List Nat)
  dictionary_id : Option Nat
  deriving Repr, DecidableEq

/-- The `Default` impl for `CompressionSettings`. -/
def CompressionSettings.default : CompressionSettings :=
  { independent_blocks := true
    block_checksums := false
    content_checksum := true
    block_size := 4 * 1024 * 1024
    dictionary := none
    dictionary_id := none }

/-- The builder setter `CompressionSettings::independent_blocks` (named
`set_independent_blocks` here because the field already uses the source
name). -/
def CompressionSettings.set_independent_blocks
    (s : CompressionSettings) (v : Bool) : CompressionSettings :=
  { s with independent_blocks := v }

/-- The builder setter `CompressionSettings::block_checksums`. -/
def CompressionSettings.set_block_checksums
    (s : CompressionSettings) (v : Bool) : CompressionSettings :=
  { s with block_checksums := v }

/-- The builder setter `CompressionSettings::content_checksum`. -/
def CompressionSettings.set_content_checksum
    (s : CompressionSettings) (v : Bool) : CompressionSettings :=
  { s with content_checksum := v }

/-- The builder setter `CompressionSettings::block_size`: the source stores
the given value directly (`self.block_size = v; self`), with only a doc
comment restricting callers to the four valid classes. -/
def CompressionSettings.set_block_size
    (s : CompressionSettings) (v : Nat) : CompressionSettings :=
  { s with block_size := v }

/-- The builder setter `CompressionSettings::dictionary`. -/
def CompressionSettings.set_dictionary
    (s : CompressionSettings) (id : Nat) (dict : List Nat) :
    CompressionSettings :=
  { s with dictionary_id := some id, dictionary := some dict }

/-- The four block-size classes permitted by the format: 64KiB, 256KiB,
1MiB, 4MiB. -/
def ValidBlockSize (v : Nat) : Prop :=
  v = 64 * 1024 ∨ v = 256 * 1024 ∨ v = 1024 * 1024 ∨ v = 4 * 1024 * 1024

instance (v : Nat) : Decidable (ValidBlockSize v) := by
  unfold ValidBlockSize; infer_instance

/-- The bounded writer `NoPartialWrites` from `src/compress/framed.rs`: it
wraps a mutable byte slice; `written` is the front part of the underlying
region already overwritten by successful writes, `remaining` the rest of
the slice it still holds. -/
structure NoPartialWrites where
  written : List Nat
  remaining : List Nat
  deriving Repr, DecidableEq

/-- The error value `ErrorKind::ConnectionAborted.into()` returned by
`NoPartialWrites::write` on overflow ("quite frankly it doesn't matter
what we specify here"). -/
inductive IoErrorKind where
  | connectionAborted
  deriving Repr, DecidableEq

/-- `NoPartialWrites::write`: refuse (with no mutation) any write larger
than the remaining slice, otherwise copy the whole data into the front of
the remaining slice and shrink it. -/
def NoPartialWrites.write (w : NoPartialWrites) (data : List Nat) :
    Except IoErrorKind Nat × NoPartialWrites :=
  if w.remaining.length < data.length then
    (Except.error IoErrorKind.connectionAborted, w)
  else
    (Except.ok data.length,
     ⟨w.written ++ data, w.remaining.drop data.length⟩)

/-- Modelled from the spec: the raw-codec corruption errors (`raw::Error`):
truncated input mid-token, and an offset that is zero or references bytes
never produced. -/
inductive RawError where
  | truncatedInput
  | invalidOffset
  deriving Repr, DecidableEq

/-- Modelled from the spec: reading LSIC continuation bytes — each byte is
added to the running total and a byte below 255 terminates the run;
running out of input is truncation. -/
def readExtra : List Nat → Option (Nat × List Nat)
  | [] => none
  | b :: rest =>
      if b = 255 then
        match readExtra rest with
        | some (n, r) => some (255 + n, r)
        | none => none
      else
        some (b, rest)

/-- Modelled from the spec: overlap-safe back-reference copy, byte by byte.
Appends `len` bytes to `out`, each taken `dist` positions back, resolving
into the external `window` when the distance exceeds the bytes already
produced in this block.  Bounds were validated by the caller, so reads use
a default of 0 out of range. -/
def copyMatch (window : List Nat) : List Nat → Nat → Nat → List Nat
  | out, _, 0 => out
  | out, dist, len + 1 =>
      let b :=
        if dist ≤ out.length then out.getD (out.length - dist) 0
        else window.getD (window.length - (dist - out.length)) 0
      copyMatch window (out ++ [b]) dist len

/-- Modelled from the spec: the raw block decoder loop
(`raw::decompress_block`).  Reads a token, copies the literal run, stops
when input is exhausted after the literals, otherwise reads the 2-byte
offset (validated nonzero and within produced output plus window) and the
match length (base 4 plus nibble plus continuation) and copies with
overlap support.  The fuel argument only justifies termination; it is
passed as one more than the input length and each iteration consumes at
least the token byte, so it never runs out. -/
def decompressLoop (window : List Nat) :
    Nat → List Nat → List Nat → Except RawError (List Nat)
  | 0, _, _ => Except.error RawError.truncatedInput
  | _ + 1, [], out => Except.ok out
  | fuel + 1, token :: rest, out => do
      let litnib := token / 16
      let (litlen, rest) ←
        if litnib = 15 then
          match readExtra rest with
          | some (n, r) => Except.ok (15 + n, r)
          | none => Except.error RawError.truncatedInput
        else Except.ok (litnib, rest)
      if rest.length < litlen then Except.error RawError.truncatedInput else
      let out := out ++ rest.take litlen
      let rest := rest.drop litlen
      match rest with
      | [] => Except.ok out
      | b0 :: b1 :: rest => do
          let dist := b0 + 256 * b1
          if dist = 0 ∨ out.length + window.length < dist then
            Except.error RawError.invalidOffset
          else
          let matchnib := token % 16
          let (extra, rest) ←
            if matchnib = 15 then
              match readExtra rest with
              | some (n, r) => Except.ok (n, r)
              | none => Except.error RawError.truncatedInput
            else Except.ok (0, rest)
          let mlen := 4 + matchnib + extra
          decompressLoop window fuel rest (copyMatch window out dist mlen)
      | _ => Except.error RawError.truncatedInput

/-- Modelled from the spec: `raw::decompress_block(input, window, output)`
with an empty starting output buffer; returns the produced output bytes. -/
def decompress_block (input window : List Nat) : Except RawError (List Nat) :=
  decompressLoop window (input.length + 1) input []

/-- Modelled from the spec: the Match Table hash — a fast 32-bit mix of a
4-byte little-endian read, truncated to the table index width (12 bits
here); collisions are filtered by byte comparison at the call site. -/
def hash4 (buf : List Nat) (pos : Nat) : Nat :=
  let v := buf.getD pos 0 + 256 * buf.getD (pos + 1) 0 +
           65536 * buf.getD (pos + 2) 0 + 16777216 * buf.getD (pos + 3) 0
  v * 2654435761 % 4294967296 / 1048576

/-- Modelled from the spec: the Match Table (`U32Table`) — a last-writer-
wins mapping from the prefix hash to the most recent position; embedded as
an association list whose head is the most recent entry. -/
structure U32Table where
  entries : List (Nat × Nat)
  deriving Repr, DecidableEq

/-- Modelled from the spec: the empty table (`U32Table::default`). -/
def U32Table.default : U32Table := ⟨[]⟩

/-- Modelled from the spec: `lookup` returns the most recent position
stored for this hash bucket, if any. -/
def U32Table.lookup (t : U32Table) (h : Nat) : Option Nat :=
  (t.entries.find? (fun e => e.1 == h)).map (·.2)

/-- Modelled from the spec: `replace(buffer, pos)` overwrites the bucket of
the prefix hash at `pos` with `pos`. -/
def U32Table.replace (t : U32Table) (buf : List Nat) (pos : Nat) : U32Table :=
  ⟨(hash4 buf pos, pos) :: t.entries⟩

/-- Modelled from the spec: `offset(by)` subtracts `by` from every stored
position, dropping any position that would become negative — used when the
front of the sliding window is discarded. -/
def U32Table.offset (t : U32Table) (by' : Nat) : U32Table :=
  ⟨(t.entries.filter (fun e => by' ≤ e.2)).map (fun e => (e.1, e.2 - by'))⟩

/-- Modelled from the spec: LSIC length emission — a 4-bit nibble, and for
values of 15 or more a run of 255 continuation bytes closed by a byte
below 255. -/
def lsic (v : Nat) : Nat × List Nat :=
  if v < 15 then (v, [])
  else (15, List.replicate ((v - 15) / 255) 255 ++ [(v - 15) % 255])

/-- Modelled from the spec: forward match extension — the length of the
common run of bytes at candidate position `c` and scan position `p`
(`c < p`), compared byte by byte up to the end of the buffer.  The fuel is
the remaining buffer length. -/
def matchLenFwd (buf : List Nat) : Nat → Nat → Nat → Nat
  | 0, _, _ => 0
  | fuel + 1, c, p =>
      if p < buf.length ∧ buf.getD c 0 = buf.getD p 0 then
        matchLenFwd buf fuel (c + 1) (p + 1) + 1
      else 0

/-- Modelled from the spec: backward match extension into the pending
literal run — count bytes before `p` (down to `anchor`) equal to the bytes
before `c` (down to 0). -/
def matchLenBack (buf : List Nat) (anchor : Nat) : Nat → Nat → Nat → Nat
  | 0, _, _ => 0
  | fuel + 1, c, p =>
      if anchor < p ∧ 0 < c ∧ buf.getD (p - 1) 0 = buf.getD (c - 1) 0 then
        matchLenBack buf anchor fuel (c - 1) (p - 1) + 1
      else 0

/-- Modelled from the spec: insert table entries for every position passed
over by an accepted match, so future lookups have maximal coverage;
positions too close to the end to hash four bytes are skipped. -/
def insertRange (buf : List Nat) (t : U32Table) (pos : Nat) : Nat → U32Table
  | 0 => t
  | n + 1 =>
      if pos + 4 ≤ buf.length then
        insertRange buf (t.replace buf pos) (pos + 1) n
      else t

/-- Modelled from the spec: one emitted sequence of the raw encoder — the
token with the two nibbles, the literal-length continuation, the literal
bytes, the 2-byte little-endian offset and the match-length
continuation. -/
def emitSequence (lits : List Nat) (dist mlen : Nat) : List Nat :=
  let (lnib, lextra) := lsic lits.length
  let (mnib, mextra) := lsic (mlen - 4)
  (lnib * 16 + mnib) :: lextra ++ lits ++ [dist % 256, dist / 256 % 256] ++ mextra

/-- Modelled from the spec: the closing literal run of a block — a token
with an empty match nibble, the length continuation and the literals. -/
def emitFinal (lits : List Nat) : List Nat :=
  let (lnib, lextra) := lsic lits.length
  (lnib * 16) :: lextra ++ lits

/-- Modelled from the spec: the greedy scan of the raw block encoder
(`compress2`).  At each position the next four bytes are hashed and the
table probed; a candidate is accepted when byte comparison yields a true
match length of at least 4 and the backward distance fits the 2-byte
offset field; the match is extended backward into the pending literals.
The final 5 bytes never begin a match, so the tail is flushed as the
closing literal run.  Every position passed over inserts a table entry.
Returns the emitted bytes and the table after the walk. -/
def compressLoop (buf : List Nat) :
    Nat → Nat → Nat → U32Table → List Nat → List Nat × U32Table
  | 0, _, anchor, table, acc =>
      (acc ++ emitFinal (buf.drop anchor), table)
  | fuel + 1, pos, anchor, table, acc =>
      if pos + 5 < buf.length then
        let h := hash4 buf pos
        let cand := table.lookup h
        let table := table.replace buf pos
        match cand with
        | some c =>
            let flen := matchLenFwd buf (buf.length - pos) c pos
            if c < pos ∧ pos - c ≤ 65535 ∧ 4 ≤ flen then
              let back := matchLenBack buf anchor (pos - anchor) c pos
              let lits := (buf.take (pos - back)).drop anchor
              let dist := pos - c
              let table := insertRange buf table (pos + 1) (flen - 1)
              compressLoop buf fuel (pos + flen) (pos + flen) table
                (acc ++ emitSequence lits dist (flen + back))
            else
              compressLoop buf fuel (pos + 1) anchor table acc
        | none =>
            compressLoop buf fuel (pos + 1) anchor table acc
      else
        (acc ++ emitFinal (buf.drop anchor), table)

/-- Modelled from the spec: `compress2(buffer, window_offset, table)` — the
raw block encoder producing the full token stream for the bytes from
`window_offset` to the end, together with the updated table. -/
def compress2 (buf : List Nat) (window_offset : Nat) (table : U32Table) :
    List Nat × U32Table :=
  compressLoop buf (buf.length + 1) window_offset window_offset table []

/-- Modelled from the spec: the raw encoder writing through the bounded
`NoPartialWrites` sink of the given capacity.  Each write is all or
nothing, so the run aborts with the would-not-fit signal exactly when the
total output exceeds the capacity; `none` is that signal
(`ErrorKind::ConnectionAborted`). -/
def compress2Bounded (buf : List Nat) (window_offset : Nat) (table : U32Table)
    (capacity : Nat) : Option (List Nat) × U32Table :=
  let (out, t) := compress2 buf window_offset table
  (if out.length ≤ capacity then some out else none, t)

/-- Modelled from the spec: the header parse errors (`header::ParseError`)
— reserved flag combinations and an unrecognized block-size-class byte. -/
inductive ParseError where
  | unsupportedVersion
  | reservedFlagBitsSet
  | unknownBlockDescriptor
  deriving Repr, DecidableEq

/-- Modelled from the spec: the frame header flag byte (`header::Flags`).
Bit layout: version in bits 6 and 7 fixed at 01, independent-blocks at bit
5, block-checksums at bit 4, content-size-present at bit 3,
content-checksum at bit 2, dictionary-id-present at bit 0; bit 1 is
reserved. -/
structure Flags where
  independent_blocks : Bool
  block_checksums : Bool
  content_size : Bool
  content_checksum : Bool
  dictionary_id : Bool
  deriving Repr, DecidableEq

/-- Modelled from the spec: `Flags::bits` — the flag byte carrying the
version bits, as hashed into the header checksum on both sides. -/
def Flags.bits (f : Flags) : Nat :=
  64 + (if f.independent_blocks then 32 else 0) +
  (if f.block_checksums then 16 else 0) +
  (if f.content_size then 8 else 0) +
  (if f.content_checksum then 4 else 0) +
  (if f.dictionary_id then 1 else 0)

/-- Modelled from the spec: `Flags::parse` — the version bits must be 01
and the reserved bit must be clear; the remaining bits select the
features. -/
def Flags.parse (b : Nat) : Except ParseError Flags :=
  if b / 64 % 4 ≠ 1 then Except.error ParseError.unsupportedVersion
  else if b / 2 % 2 ≠ 0 then Except.error ParseError.reservedFlagBitsSet
  else Except.ok
    { independent_blocks := b / 32 % 2 = 1
      block_checksums := b / 16 % 2 = 1
      content_size := b / 8 % 2 = 1
      content_checksum := b / 4 % 2 = 1
      dictionary_id := b % 2 = 1 }

/-- Modelled from the spec: `BlockDescriptor::new` — the descriptor byte
for each of the four block-size classes; any other configured size has no
descriptor. -/
def BlockDescriptor.new? : Nat → Option Nat
  | 65536 => some 0x40
  | 262144 => some 0x50
  | 1048576 => some 0x60
  | 4194304 => some 0x70
  | _ => none

/-- Modelled from the spec: `BlockDescriptor::block_maxsize` — the maximum
decoded block size for a descriptor byte; other bit patterns are a parse
error. -/
def BlockDescriptor.blockMaxsize? : Nat → Option Nat
  | 0x40 => some 65536
  | 0x50 => some 262144
  | 0x60 => some 1048576
  | 0x70 => some 4194304
  | _ => none

/-- Modelled from the spec: seeding the Match Table from a dictionary —
`dict.windows(size_of usize).step_by(3)` inserts an entry for every third
position that still has a full 8-byte window. -/
def seedTable (dict : List Nat) : Nat → Nat → U32Table → U32Table
  | 0, _, t => t
  | fuel + 1, pos, t =>
      if pos + 8 ≤ dict.length then
        seedTable dict fuel (pos + 3) (t.replace dict pos)
      else t

/-- The header bytes produced by `compress_internal`: magic, flag byte
(version or-ed with the feature bits), block descriptor byte, optional
little-endian content size, optional little-endian dictionary id, and the
checksum byte — bits 8 to 15 of the hash over everything after the
magic. -/
def headerBytes (flags : Flags) (bd_byte : Nat) (content_size : Option Nat)
    (dictionary_id : Option Nat) : List Nat :=
  let body := flags.bits :: bd_byte ::
    ((content_size.map u64le).getD [] ++ (dictionary_id.map u32le).getD [])
  u32le MAGIC ++ body ++ [xxh32 0 body / 256 % 256]

/-- The per-block bytes written by `compress_internal`: on raw-encoder
success the coded length then the coded bytes; on the would-not-fit signal
the count of newly read bytes with the incompressible top bit set (the
count is below 2 to the 31, so the bit-or is addition) followed by
`in_buffer[..read_bytes]` — note that this slice starts at the FRONT of
the block buffer, so it holds carryover-window or dictionary bytes rather
than the newly read chunk whenever the window offset is nonzero; either
way the block checksum over the bytes just written follows when
enabled. -/
def emitBlock (block_checksums : Bool) (result : Option (List Nat))
    (in_buffer : List Nat) (read_bytes : Nat) : List Nat :=
  let write :=
    match result with
    | some coded => coded
    | none => in_buffer.take read_bytes
  (match result with
    | some coded => u32le coded.length
    | none => u32le (read_bytes + INCOMPRESSIBLE)) ++
  write ++ (if block_checksums then u32le (xxh32 0 write) else [])

/-- The end-of-loop window maintenance of `compress_internal` in
dependent-blocks mode: once the buffer exceeds WINDOW_SIZE, forget the
excess from the front and shift the table offsets by the same amount. -/
def retainWindow (in_buffer : List Nat) (table : U32Table) :
    List Nat × U32Table :=
  if WINDOW_SIZE < in_buffer.length then
    let how_much_to_forget := in_buffer.length - WINDOW_SIZE
    (in_buffer.drop how_much_to_forget, table.offset how_much_to_forget)
  else (in_buffer, table)

/-- The block loop of `compress_internal`: read up to `block_size` bytes
after the carried buffer, exit on zero bytes read, update the content
hasher, run the bounded raw encoder, emit the framed block, then either
reset buffer and table (independent blocks) or retain the window.  The
fuel is one more than the remaining input length; every continuing
iteration consumes at least one input byte, so it never runs out. -/
def compressBlockLoop (s : CompressionSettings) (block_initializer : List Nat)
    (template_table : U32Table) :
    Nat → List Nat → List Nat → U32Table → Option Nat → List Nat → List Nat
  | 0, _, _, _, content_hasher, acc =>
      acc ++ u32le 0 ++ (content_hasher.map u32le).getD []
  | fuel + 1, remaining, in_buffer, table, content_hasher, acc =>
      let window_offset := in_buffer.length
      let chunk := remaining.take s.block_size
      if chunk.length = 0 then
        acc ++ u32le 0 ++ (content_hasher.map u32le).getD []
      else
        let in_buffer := in_buffer ++ chunk
        let content_hasher := content_hasher.map (fun h => xxh32 h chunk)
        let (result, table) :=
          compress2Bounded in_buffer window_offset table chunk.length
        let acc := acc ++ emitBlock s.block_checksums result in_buffer chunk.length
        let (in_buffer, table) :=
          if s.independent_blocks then (block_initializer, template_table)
          else retainWindow in_buffer table
        compressBlockLoop s block_initializer template_table fuel
          (remaining.drop s.block_size) in_buffer table content_hasher acc

/-- `CompressionSettings::compress_internal` as a pure function from the
full input byte sequence (the reader) to the output byte sequence (the
writer).  Returns `none` only when the configured block size is not one of
the four classes, in which case the missing `BlockDescriptor::new` has no
defined descriptor byte. -/
def CompressionSettings.compress_internal (s : CompressionSettings)
    (input : List Nat) (content_size : Option Nat) : Option (List Nat) :=
  match BlockDescriptor.new? s.block_size with
  | none => none
  | some bd_byte =>
      let flags : Flags :=
        { independent_blocks := s.independent_blocks
          block_checksums := s.block_checksums
          content_size := content_size.isSome
          content_checksum := s.content_checksum
          dictionary_id := s.dictionary_id.isSome }
      let content_hasher : Option Nat :=
        if s.content_checksum then some 0 else none
      let template_table :=
        match s.dictionary with
        | some dict => seedTable dict (dict.length + 1) 0 U32Table.default
        | none => U32Table.default
      let block_initializer := s.dictionary.getD []
      let header := headerBytes flags bd_byte content_size s.dictionary_id
      some (compressBlockLoop s block_initializer template_table
        (input.length + 1) input block_initializer template_table
        content_hasher header)

/-- `CompressionSettings::compress`: no content size is declared. -/
def CompressionSettings.compress (s : CompressionSettings)
    (input : List Nat) : Option (List Nat) :=
  s.compress_internal input none

/-- The decompression error type from `src/decompress/framed.rs`
(`DecompressionError`), extended by one constructor modelling a Rust
panic: `Vec::drain(..outlen)` with a range end beyond the vector length
aborts the process in the source, which the embedding reports as
`panicDrainOutOfRange`. -/
inductive DecompressionError where
  | inputError
  | codecError (e : RawError)
  | headerParseError (e : ParseError)
  | wrongMagic (n : Nat)
  | headerChecksumFail
  | blockChecksumFail
  | frameChecksumFail
  | blockLengthOverflow
  | blockSizeOverflow
  | panicDrainOutOfRange
  deriving Repr, DecidableEq

/-- Reading a little-endian 32-bit integer inside the decoder, with end of
input mapped to the wrapped io error. -/
def readU32 (input : List Nat) :
    Except DecompressionError (Nat × List Nat) :=
  match readU32le input with
  | some r => Except.ok r
  | none => Except.error DecompressionError.inputError

/-- The frame decoder state from `src/decompress/framed.rs`
(`LZ4FrameReader`), with the wrapped byte source embedded as the list of
bytes not yet read. -/
structure LZ4FrameReader where
  input : List Nat
  flags : Flags
  block_maxsize : Nat
  content_size : Option Nat
  dictionary_id : Option Nat
  content_hasher : Option Nat
  carryover_window : Option (List Nat)
  finished : Bool
  deriving Repr, DecidableEq

/-- `LZ4FrameReader::new`: read and validate magic, flags, block
descriptor, the optional content size and dictionary id, and the header
checksum (bits 8 to 15 of the hash over the header bytes after the
magic), then set up the content hasher and, iff blocks are dependent, the
empty carryover window. -/
def LZ4FrameReader.new (input : List Nat) :
    Except DecompressionError LZ4FrameReader := do
  let (magic, input) ← readU32 input
  if magic ≠ MAGIC then Except.error (DecompressionError.wrongMagic magic) else
  let (flag_byte, input) ←
    match readU8 input with
    | some r => Except.ok r
    | none => Except.error DecompressionError.inputError
  let flags ←
    match Flags.parse flag_byte with
    | Except.ok f => Except.ok f
    | Except.error e => Except.error (DecompressionError.headerParseError e)
  let (bd_byte, input) ←
    match readU8 input with
    | some r => Except.ok r
    | none => Except.error DecompressionError.inputError
  let hashed := [flags.bits, bd_byte]
  let (content_size, hashed, input) ←
    if flags.content_size then do
      let (i, input) ←
        match readU64le input with
        | some r => Except.ok r
        | none => Except.error DecompressionError.inputError
      Except.ok (some i, hashed ++ u64le i, input)
    else Except.ok (none, hashed, input)
  let (dictionary_id, hashed, input) ←
    if flags.dictionary_id then do
      let (i, input) ← readU32 input
      Except.ok (some i, hashed ++ u32le i, input)
    else Except.ok (none, hashed, input)
  let (header_checksum_desired, input) ←
    match readU8 input with
    | some r => Except.ok r
    | none => Except.error DecompressionError.inputError
  let header_checksum_actual := xxh32 0 hashed / 256 % 256
  if header_checksum_desired ≠ header_checksum_actual then
    Except.error DecompressionError.headerChecksumFail
  else
  let block_maxsize ←
    match BlockDescriptor.blockMaxsize? bd_byte with
    | some m => Except.ok m
    | none =>
        Except.error (DecompressionError.headerParseError ParseError.unknownBlockDescriptor)
  Except.ok
    { input := input
      flags := flags
      block_maxsize := block_maxsize
      content_size := content_size
      dictionary_id := dictionary_id
      content_hasher := if flags.content_checksum then some 0 else none
      carryover_window := if flags.independent_blocks then none else some []
      finished := false }

/-- The dependent-blocks window update inside `decode_block`: when the
output is shorter than WINDOW_SIZE the source drains as many bytes from
the front of the window as it appends — `window.drain(..outlen)` panics
whenever the window holds fewer than `outlen` bytes — otherwise the window
is replaced by the trailing WINDOW_SIZE bytes of the output. -/
def windowUpdate (window output : List Nat) :
    Except DecompressionError (List Nat) :=
  let outlen := output.length
  if outlen < WINDOW_SIZE then
    if window.length < outlen then
      Except.error DecompressionError.panicDrainOutOfRange
    else
      Except.ok (window.drop outlen ++ output)
  else
    Except.ok (output.drop (outlen - WINDOW_SIZE))

/-- `LZ4FrameReader::decode_block(output)` with the empty output buffer
made explicit: returns the new state and the bytes produced into the
output buffer.  A zero length is the terminal marker (verify the content
checksum if present, then enter the finished state); the top bit of the
length marks a stored block (testing the top bit of a 32-bit value is the
comparison with 2 to the 31, stripping it is the remainder); coded blocks
run the raw decoder against the carryover window if present and update the
window; stored blocks copy the bytes straight to the output. -/
def LZ4FrameReader.decode_block (st : LZ4FrameReader) :
    Except DecompressionError (LZ4FrameReader × List Nat) :=
  if st.finished then Except.ok (st, []) else do
  let (block_length, input) ← readU32 st.input
  if block_length = 0 then
    match st.content_hasher with
    | some h => do
        let (checksum, input) ← readU32 input
        if h ≠ checksum then
          Except.error DecompressionError.frameChecksumFail
        else
          Except.ok ({ st with input := input, content_hasher := none,
                               finished := true }, [])
    | none =>
        Except.ok ({ st with input := input, finished := true }, [])
  else
  let is_compressed := block_length < 2147483648
  let block_length := block_length % 2147483648
  if input.length < block_length then
    Except.error DecompressionError.inputError
  else
  let buf := input.take block_length
  let input := input.drop block_length
  let input ←
    if st.flags.block_checksums then do
      let (checksum, input) ← readU32 input
      if xxh32 0 buf ≠ checksum then
        Except.error DecompressionError.blockChecksumFail
      else Except.ok input
    else Except.ok input
  let (carryover_window, output) ←
    if is_compressed then
      match st.carryover_window with
      | some window => do
          let output ←
            match decompress_block buf window with
            | Except.ok o => Except.ok o
            | Except.error e =>
                Except.error (DecompressionError.codecError e)
          let window ← windowUpdate window output
          Except.ok (some window, output)
      | none => do
          let output ←
            match decompress_block buf [] with
            | Except.ok o => Except.ok o
            | Except.error e =>
                Except.error (DecompressionError.codecError e)
          Except.ok (none, output)
    else
      Except.ok (st.carryover_window, buf)
  if st.block_maxsize < output.length then
    Except.error DecompressionError.blockSizeOverflow
  else
  let content_hasher := st.content_hasher.map (fun h => xxh32 h output)
  Except.ok ({ st with input := input, carryover_window := carryover_window,
                       content_hasher := content_hasher }, output)

/-- The block loop of `decompress_file`: decode one block into a fresh
buffer, stop at the first empty output, otherwise append and continue.
The fuel is one more than the remaining input length; every continuing
iteration consumes at least five input bytes. -/
def decompressFileLoop :
    Nat → LZ4FrameReader → List Nat →
    Except DecompressionError (List Nat)
  | 0, _, _ => Except.error DecompressionError.inputError
  | fuel + 1, st, plaintext => do
      let (st, buf) ← st.decode_block
      if buf.length = 0 then Except.ok plaintext
      else decompressFileLoop fuel st (plaintext ++ buf)

/-- `decompress_file(reader)`: parse the header, then decode blocks until
one produces no bytes, concatenating the plaintext. -/
def decompress_file (input : List Nat) :
    Except DecompressionError (List Nat) := do
  let reader ← LZ4FrameReader.new input
  decompressFileLoop (reader.input.length + 1) reader []

/-- The `take(limit)` read adapter over a byte source that yields its bytes
in arbitrary nonempty chunks, driven by `read_to_end`: whole chunks are
consumed while the limit allows, a chunk reached when the limit runs out
is split and its tail stays in the source.  Models how
`reader.by_ref().take(block_size).read_to_end(..)` consumes an arbitrary
underlying reader. -/
def readTake : Nat → List (List Nat) → List Nat × List (List Nat)
  | _, [] => ([], [])
  | limit, c :: cs =>
      if limit = 0 then ([], c :: cs)
      else if c.length ≤ limit then
        let (more, rest) := readTake (limit - c.length) cs
        (c ++ more, rest)
      else (c.take limit, c.drop limit :: cs)

/-- The block loop of `compress_internal` run against a byte source that
yields its bytes in arbitrary chunks (the same loop as
`compressBlockLoop`, with the read performed through `readTake`). -/
def compressBlockLoopChunked (s : CompressionSettings)
    (block_initializer : List Nat) (template_table : U32Table) :
    Nat → List (List Nat) → List Nat → U32Table → Option Nat → List Nat →
    List Nat
  | 0, _, _, _, content_hasher, acc =>
      acc ++ u32le 0 ++ (content_hasher.map u32le).getD []
  | fuel + 1, chunks, in_buffer, table, content_hasher, acc =>
      let window_offset := in_buffer.length
      let (chunk, chunks) := readTake s.block_size chunks
      if chunk.length = 0 then
        acc ++ u32le 0 ++ (content_hasher.map u32le).getD []
      else
        let in_buffer := in_buffer ++ chunk
        let content_hasher := content_hasher.map (fun h => xxh32 h chunk)
        let (result, table) :=
          compress2Bounded in_buffer window_offset table chunk.length
        let acc := acc ++ emitBlock s.block_checksums result in_buffer chunk.length
        let (in_buffer, table) :=
          if s.independent_blocks then (block_initializer, template_table)
          else retainWindow in_buffer table
        compressBlockLoopChunked s block_initializer template_table fuel
          chunks in_buffer table content_hasher acc

/-- `compress_internal` driven by a chunked byte source: one run of the
compressor against one concrete reader behavior. -/
def CompressionSettings.compressChunked (s : CompressionSettings)
    (chunks : List (List Nat)) (content_size : Option Nat) :
    Option (List Nat) :=
  match BlockDescriptor.new? s.block_size with
  | none => none
  | some bd_byte =>
      let flags : Flags :=
        { independent_blocks := s.independent_blocks
          block_checksums := s.block_checksums
          content_size := content_size.isSome
          content_checksum := s.content_checksum
          dictionary_id := s.dictionary_id.isSome }
      let content_hasher : Option Nat :=
        if s.content_checksum then some 0 else none
      let template_table :=
        match s.dictionary with
        | some dict => seedTable dict (dict.length + 1) 0 U32Table.default
        | none => U32Table.default
      let block_initializer := s.dictionary.getD []
      let header := headerBytes flags bd_byte content_size s.dictionary_id
      some (compressBlockLoopChunked s block_initializer template_table
        (chunks.flatten.length + 1) chunks block_initializer template_table
        content_hasher header)

/-- Dependent-blocks compression settings with the 64KiB block class and
otherwise default values, used as a concrete configuration. -/
def depSettings : CompressionSettings :=
  { CompressionSettings.default with
      independent_blocks := false, block_size := 65536 }

/-- The flag record of a dependent-blocks frame with every optional
feature disabled. -/
def depFlags : Flags :=
  { independent_blocks := false
    block_checksums := false
    content_size := false
    content_checksum := false
    dictionary_id := false }

/-- A freshly initialized dependent-blocks decoder (empty carryover
window) whose source holds one coded block of eleven bytes: the token 160
announces ten literals and no match, so the raw decoder produces ten
bytes. -/
def depReaderFreshWindow : LZ4FrameReader :=
  { input := u32le 11 ++ 160 :: [1, 2, 3, 4, 5, 6, 7, 8, 9, 10]
    flags := depFlags
    block_maxsize := 65536
    content_size := none
    dictionary_id := none
    content_hasher := none
    carryover_window := some []
    finished := false }

/-- A twelve-byte dictionary of distinct byte values, used to give the
block buffer a nonzero window offset before the first chunk. -/
def c4Dict : List Nat :=
  [100, 101, 102, 103, 104, 105, 106, 107, 108, 109, 110, 111]

/-- A ten-byte input chunk of distinct values sharing no 4-byte run with
`c4Dict`, so the raw encoder finds no match and the literal-only coding
(11 bytes) exceeds the 10-byte bound: the block is incompressible. -/
def c4Chunk : List Nat :=
  [1, 2, 3, 4, 5, 6, 7, 8, 9, 10]

/-- Default compression settings (independent blocks, 4MiB block class,
content checksum on) extended with the dictionary `c4Dict` under id 7. -/
def c4Settings : CompressionSettings :=
  { CompressionSettings.default with
      dictionary := some c4Dict, dictionary_id := some 7 }

/-- The flag record of the frame `c4Settings` produces with no declared
content size. -/
def c4Flags : Flags :=
  { independent_blocks := true
    block_checksums := false
    content_size := false
    content_checksum := true
    dictionary_id := true }

/-- A decoder about to read a block stored verbatim: the length word
2147483650 carries the incompressible top bit over a payload length of
two, followed by the two payload bytes; the carryover window holds two
bytes. -/
def c10Reader : LZ4FrameReader :=
  { input := u32le 2147483650 ++ [7, 8]
    flags := depFlags
    block_maxsize := 65536
    content_size := none
    dictionary_id := none
    content_hasher := none
    carryover_window := some [3, 4]
    finished := false }

/-- The state of `c10Reader` after decoding its stored block: the source
is drained and everything else, the window included, is unchanged. -/
def c10ReaderAfter : LZ4FrameReader :=
  { input := []
    flags := depFlags
    block_maxsize := 65536
    content_size := none
    dictionary_id := none
    content_hasher := none
    carryover_window := some [3, 4]
    finished := false }

/-- C1: the round-trip property fails on the code.  Compressing twenty
zero bytes in dependent-blocks mode (64KiB blocks, defaults otherwise)
produces a frame with one coded block; decoding it reaches the window
update with a twenty-byte output and an empty carryover window, where
`window.drain(..outlen)` panics, instead of returning the original
bytes. -/
theorem roundtrip_dependent_small_input_panics :
    (depSettings.compress (List.replicate 20 0)).map decompress_file =
      some (Except.error DecompressionError.panicDrainOutOfRange) := by
  rfl

/-- C2: the claim fails on the code.  On a freshly initialized
dependent-blocks decoder (window empty) a coded block whose decompression
produces ten bytes makes `decode_block` panic in `window.drain(..outlen)`
(modelled as the `panicDrainOutOfRange` error) instead of leaving the
window equal to the last `min(WINDOW_SIZE, 0 + 10)` bytes of the
concatenation. -/
theorem decode_block_fresh_window_drain_panics :
    depReaderFreshWindow.decode_block =
      Except.error DecompressionError.panicDrainOutOfRange := by
  rfl

/-- C5: `NoPartialWrites::write` is atomic — a request longer than the
remaining capacity returns an error and leaves the writer completely
unchanged; otherwise all requested bytes are appended to the written
region and the remaining capacity shrinks by exactly the data length. -/
theorem noPartialWrites_write_spec (w : NoPartialWrites) (data : List Nat) :
    (w.remaining.length < data.length →
      w.write data = (Except.error IoErrorKind.connectionAborted, w)) ∧
    (data.length ≤ w.remaining.length →
      w.write data =
        (Except.ok data.length,
          ⟨w.written ++ data, w.remaining.drop data.length⟩) ∧
      ((w.write data).2).remaining.length =
        w.remaining.length - data.length) := by
  constructor
  · intro h
    simp [NoPartialWrites.write, h]
  · intro h
    have h' : ¬ w.remaining.length < data.length := Nat.not_lt.mpr h
    exact ⟨by simp [NoPartialWrites.write, h'],
           by simp [NoPartialWrites.write, h']⟩

/-- Witness for C5: both arms of the specification at concrete writers —
an overflowing request is rejected without mutation, a fitting request is
copied whole and shrinks the capacity from two to zero. -/
theorem noPartialWrites_write_spec_witness :
    NoPartialWrites.write ⟨[], [9, 9]⟩ [1, 2, 3] =
      (Except.error IoErrorKind.connectionAborted, ⟨[], [9, 9]⟩) ∧
    NoPartialWrites.write ⟨[7], [9, 9]⟩ [1, 2] =
      (Except.ok 2, ⟨[7, 1, 2], []⟩) :=
  ⟨(noPartialWrites_write_spec ⟨[], [9, 9]⟩ [1, 2, 3]).1 (by decide),
   ((noPartialWrites_write_spec ⟨[7], [9, 9]⟩ [1, 2]).2 (by decide)).1⟩

/-- C6: the claim fails on the code.  The block-size setter stores the
value 12345 verbatim even though 12345 is none of the four permitted
classes — no rejection or normalization happens in the setter. -/
theorem set_block_size_counterexample :
    (CompressionSettings.default.set_block_size 12345).block_size = 12345 ∧
    ¬ ValidBlockSize 12345 :=
  ⟨rfl, by decide⟩

/-- C6 amended: the block-size setter stores whatever value it is given,
unchanged; validity is only a documented caller obligation, not enforced
by the setter. -/
theorem set_block_size_stores_any_value (s : CompressionSettings) (v : Nat) :
    (s.set_block_size v).block_size = v :=
  rfl

/-- C8: once the decoder is in the finished state, `decode_block` is a
no-op — it returns success with an unchanged state (in particular the
embedded byte source, so nothing further is read) and an empty output. -/
theorem decode_block_after_finished (st : LZ4FrameReader)
    (h : st.finished = true) :
    st.decode_block = Except.ok (st, []) := by
  simp [LZ4FrameReader.decode_block, h]

/-- Witness for C8: a concrete finished decoder whose source still holds
bytes returns success, the same state and no output. -/
theorem decode_block_after_finished_witness :
    ({ input := [1, 2, 3], flags := depFlags, block_maxsize := 65536,
       content_size := none, dictionary_id := none, content_hasher := none,
       carryover_window := some [5], finished := true } :
      LZ4FrameReader).decode_block =
      Except.ok ({ input := [1, 2, 3], flags := depFlags,
                   block_maxsize := 65536, content_size := none,
                   dictionary_id := none, content_hasher := none,
                   carryover_window := some [5], finished := true }, []) :=
  decode_block_after_finished _ rfl

/-- The source window update keeps the window within WINDOW_SIZE whenever
it does not panic: the drain branch preserves the window length and the
replace branch leaves exactly WINDOW_SIZE bytes. -/
theorem windowUpdate_length_le (W O W2 : List Nat)
    (h : windowUpdate W O = Except.ok W2) (hW : W.length ≤ WINDOW_SIZE) :
    W2.length ≤ WINDOW_SIZE := by
  simp only [windowUpdate] at h
  split at h
  · split at h
    · exact absurd h (by simp)
    · simp only [Except.ok.injEq] at h
      subst h
      simp only [List.length_append, List.length_drop]
      omega
  · simp only [Except.ok.injEq] at h
    subst h
    simp only [List.length_drop]
    omega

set_option maxHeartbeats 1000000 in
/-- Any successful `decode_block` keeps the carryover window within
WINDOW_SIZE, assuming it was within the bound before the call. -/
theorem decode_block_window_le (st st' : LZ4FrameReader) (W out W' : List Nat)
    (hW : st.carryover_window = some W) (hlen : W.length ≤ WINDOW_SIZE)
    (hok : st.decode_block = Except.ok (st', out))
    (hW' : st'.carryover_window = some W') : W'.length ≤ WINDOW_SIZE := by
  have hsame : ∀ x : LZ4FrameReader, x = st' →
      x.carryover_window = st.carryover_window → W'.length ≤ WINDOW_SIZE := by
    intro x hx' hx
    subst hx'
    rw [hW] at hx
    rw [hx] at hW'
    injection hW' with h
    subst h
    exact hlen
  rw [LZ4FrameReader.decode_block] at hok
  simp only [bind, Except.bind] at hok
  repeat' split at hok
  all_goals try exact Except.noConfusion hok
  all_goals
    injection hok with hp
  all_goals
    injection hp with h1 h2
  all_goals
    first
      | exact hsame _ h1 rfl
      | (subst h1
         first
           | exact Option.noConfusion hW'
           | (injection hW' with hWv
              subst hWv
              refine windowUpdate_length_le _ _ _ (by assumption) ?_
              simp_all))

/-- C3: after every block processed by the frame encoder in
dependent-blocks mode (the `retainWindow` maintenance at the end of the
block loop) the retained buffer holds at most WINDOW_SIZE bytes, and after
every successfully decoded block the decoder carryover window holds at
most WINDOW_SIZE bytes, given it did before the call (it starts empty). -/
theorem window_bound_encode_decode :
    (∀ (buf : List Nat) (t : U32Table),
      ((retainWindow buf t).1).length ≤ WINDOW_SIZE) ∧
    (∀ (st st' : LZ4FrameReader) (W out W' : List Nat),
      st.carryover_window = some W → W.length ≤ WINDOW_SIZE →
      st.decode_block = Except.ok (st', out) →
      st'.carryover_window = some W' → W'.length ≤ WINDOW_SIZE) := by
  constructor
  · intro buf t
    simp only [retainWindow]
    split
    · simp only [List.length_drop]
      omega
    · simp only [List.length_drop]
      omega
  · intro st st' W out W' hW hlen hok hW'
    exact decode_block_window_le st st' W out W' hW hlen hok hW'

/-- Witness for C3: the encoder bound at a three-byte buffer and the
decoder bound across the concrete stored-block decode of `c10Reader`. -/
theorem window_bound_encode_decode_witness :
    ((retainWindow [1, 2, 3] U32Table.default).1).length ≤ WINDOW_SIZE ∧
    ([3, 4] : List Nat).length ≤ WINDOW_SIZE :=
  ⟨window_bound_encode_decode.1 [1, 2, 3] U32Table.default,
   window_bound_encode_decode.2 c10Reader c10ReaderAfter [3, 4] [7, 8] [3, 4]
     rfl (by decide) rfl rfl⟩

set_option maxHeartbeats 1000000 in
/-- C10: decoding a block stored verbatim (top bit of the length set)
copies its bytes straight into the output and leaves the carryover window
completely unchanged. -/
theorem decode_block_stored (st st' : LZ4FrameReader) (out : List Nat)
    (len : Nat) (rest : List Nat)
    (hfin : st.finished = false)
    (hread : readU32 st.input = Except.ok (len, rest))
    (hstored : 2147483648 ≤ len)
    (hok : st.decode_block = Except.ok (st', out)) :
    st'.carryover_window = st.carryover_window ∧
    out = rest.take (len % 2147483648) := by
  rw [LZ4FrameReader.decode_block, if_neg (by simp [hfin])] at hok
  simp only [hread, bind, Except.bind] at hok
  repeat' split at hok
  all_goals try exact Except.noConfusion hok
  all_goals try omega
  all_goals injection hok with hp
  all_goals injection hp with h1 h2
  all_goals subst h1
  all_goals exact ⟨rfl, h2.symm⟩

/-- Witness for C10: the concrete stored-block decode of `c10Reader` — the
window stays `[3, 4]` and the output is exactly the stored payload. -/
theorem decode_block_stored_witness :
    c10ReaderAfter.carryover_window = c10Reader.carryover_window ∧
    ([7, 8] : List Nat) = ([7, 8] : List Nat).take (2147483650 % 2147483648) :=
  decode_block_stored c10Reader c10ReaderAfter [7, 8] 2147483650 [7, 8]
    rfl rfl (by decide) rfl

/-- C4: the claim fails on the code.  Compressing the ten bytes 1 to 10
with a twelve-byte dictionary leaves the raw encoder with no match, so the
only block takes the incompressible path — and the stored payload written
is `in_buffer[..read_bytes]`, the first ten bytes of the block buffer,
which here are DICTIONARY bytes (100 to 109), not the raw input bytes the
claim requires.  The emitted frame is the header, the length word with the
incompressible bit, those ten buffer-front bytes, the terminator and the
content hash of the real input. -/
theorem incompressible_block_stores_buffer_front :
    c4Settings.compress c4Chunk =
      some (headerBytes c4Flags 0x70 none (some 7) ++
        u32le (10 + INCOMPRESSIBLE) ++ c4Dict.take 10 ++ u32le 0 ++
        u32le (xxh32 0 c4Chunk)) ∧
    c4Dict.take 10 ≠ c4Chunk :=
  ⟨rfl, by decide⟩

/-- Reading through the take adapter yields exactly the first `limit`
bytes of the flattened source, leaves a source whose flattening is the
rest, and never leaves an empty chunk at the front. -/
theorem readTake_flatten (chunks : List (List Nat)) :
    ∀ limit : Nat, [] ∉ chunks →
      (readTake limit chunks).1 = chunks.flatten.take limit ∧
      (readTake limit chunks).2.flatten = chunks.flatten.drop limit ∧
      [] ∉ (readTake limit chunks).2 := by
  induction chunks with
  | nil =>
      intro limit _
      simp [readTake]
  | cons c cs ih =>
      intro limit h
      have hc : c ≠ [] := fun hc => h (by simp [hc])
      have hcs : [] ∉ cs := fun hm => h (List.mem_cons_of_mem _ hm)
      by_cases h0 : limit = 0
      · subst h0
        simp [readTake, h]
      · by_cases hlen : c.length ≤ limit
        · obtain ⟨ih1, ih2, ih3⟩ := ih (limit - c.length) hcs
          simp only [readTake, if_neg h0, if_pos hlen]
          refine ⟨?_, ?_, ?_⟩
          · simp only [List.flatten_cons, List.take_append_eq_append_take,
              List.take_of_length_le hlen]
            rw [ih1]
          · simp only [List.flatten_cons, List.drop_append_eq_append_drop,
              List.drop_eq_nil_of_le hlen, List.nil_append]
            rw [ih2]
          · exact ih3
        · simp only [readTake, if_neg h0, if_neg hlen]
          push_neg at hlen
          refine ⟨?_, ?_, ?_⟩
          · simp only [List.flatten_cons, List.take_append_eq_append_take]
            rw [Nat.sub_eq_zero_of_le (Nat.le_of_lt hlen)]
            simp
          · simp only [List.flatten_cons, List.drop_append_eq_append_drop]
            rw [Nat.sub_eq_zero_of_le (Nat.le_of_lt hlen)]
            simp
          · intro hm
            rcases List.mem_cons.mp hm with h1 | h1
            · have : (c.drop limit).length = 0 := by rw [← h1]; rfl
              rw [List.length_drop] at this
              omega
            · exact hcs h1

/-- The block loop run over a chunked source equals the block loop run
over the flattened byte sequence: the loop output does not depend on how
the reader splits its bytes across read calls. -/
theorem compressBlockLoopChunked_eq (s : CompressionSettings)
    (bi : List Nat) (tt : U32Table) (fuel : Nat) :
    ∀ (chunks : List (List Nat)) (in_buffer : List Nat) (table : U32Table)
      (ch : Option Nat) (acc : List Nat), [] ∉ chunks →
      compressBlockLoopChunked s bi tt fuel chunks in_buffer table ch acc =
      compressBlockLoop s bi tt fuel chunks.flatten in_buffer table ch acc := by
  induction fuel with
  | zero => intro chunks _ _ _ _ _; rfl
  | succ n ih =>
      intro chunks in_buffer table ch acc h
      obtain ⟨h1, h2, h3⟩ := readTake_flatten chunks s.block_size h
      simp only [compressBlockLoopChunked, compressBlockLoop]
      rw [h1]
      split
      · rfl
      · rw [ih _ _ _ _ _ h3, h2]

/-- C9: compression is deterministic — two runs of the compressor on the
same input bytes and the same settings produce byte-identical frames, even
when the two underlying readers deliver those bytes split into different
read-call chunks (the only run-to-run variation the source is exposed
to). -/
theorem compress_deterministic (s : CompressionSettings) (csize : Option Nat)
    (cs1 cs2 : List (List Nat)) (h1 : [] ∉ cs1) (h2 : [] ∉ cs2)
    (hflat : cs1.flatten = cs2.flatten) :
    s.compressChunked cs1 csize = s.compressChunked cs2 csize := by
  cases hbd : BlockDescriptor.new? s.block_size with
  | none => simp [CompressionSettings.compressChunked, hbd]
  | some bd =>
      simp only [CompressionSettings.compressChunked, hbd]
      rw [compressBlockLoopChunked_eq _ _ _ _ _ _ _ _ _ h1,
          compressBlockLoopChunked_eq _ _ _ _ _ _ _ _ _ h2, hflat]

/-- Witness for C9: two differently chunked deliveries of the bytes 1, 2,
3 compress to the same frame under the default settings. -/
theorem compress_deterministic_witness :
    CompressionSettings.default.compressChunked [[1, 2], [3]] none =
      CompressionSettings.default.compressChunked [[1], [2, 3]] none :=
  compress_deterministic CompressionSettings.default none [[1, 2], [3]]
    [[1], [2, 3]] (by decide) (by decide) rfl

/-- Round trip of the little-endian 32-bit serialization: reading back
yields the value reduced modulo 2 to the 32. -/
theorem readU32le_u32le (n : Nat) (r : List Nat) :
    readU32le (u32le n ++ r) = some (n % 4294967296, r) := by
  simp only [u32le, List.cons_append, List.nil_append, readU32le,
    Option.some.injEq, Prod.mk.injEq]
  exact ⟨by omega, trivial⟩

/-- The decoder-side wrapper of the 32-bit read on serialized data. -/
theorem readU32_u32le (n : Nat) (r : List Nat) :
    readU32 (u32le n ++ r) = Except.ok (n % 4294967296, r) := by
  simp [readU32, readU32le_u32le]

/-- Round trip of the little-endian 64-bit serialization. -/
theorem readU64le_u64le (n : Nat) (r : List Nat) :
    readU64le (u64le n ++ r) = some (n % 18446744073709551616, r) := by
  simp only [u64le, List.cons_append, List.nil_append, readU64le,
    Option.some.injEq, Prod.mk.injEq]
  exact ⟨by omega, trivial⟩

/-- Parsing a generated flag byte recovers exactly the flags. -/
theorem flags_parse_bits (f : Flags) : Flags.parse f.bits = Except.ok f := by
  rcases f with ⟨a, b, c, d, e⟩
  cases a <;> cases b <;> cases c <;> cases d <;> cases e <;> rfl

/-- The descriptor byte produced for a valid block size maps back to that
block size. -/
theorem new_blockMaxsize (v bd : Nat) (h : BlockDescriptor.new? v = some bd) :
    BlockDescriptor.blockMaxsize? bd = some v := by
  unfold BlockDescriptor.new? at h
  split at h <;>
    first
      | (injection h with h; subst h; rfl)
      | exact Option.noConfusion h

/-- Parsing a generated header succeeds and reconstructs every header
field, leaving the source positioned after the header. -/
theorem new_headerBytes (f : Flags) (bd v : Nat) (csize id : Option Nat)
    (rest : List Nat)
    (hms : BlockDescriptor.blockMaxsize? bd = some v)
    (hcs : ∀ n ∈ csize, n < 18446744073709551616)
    (hid : ∀ i ∈ id, i < 4294967296)
    (hfcs : f.content_size = csize.isSome)
    (hfid : f.dictionary_id = id.isSome) :
    LZ4FrameReader.new (headerBytes f bd csize id ++ rest) =
      Except.ok
        { input := rest
          flags := f
          block_maxsize := v
          content_size := csize
          dictionary_id := id
          content_hasher := if f.content_checksum then some 0 else none
          carryover_window := if f.independent_blocks then none else some []
          finished := false } := by
  have hb : ∀ n m : Nat, n < m → n % m = n := fun _ _ h => Nat.mod_eq_of_lt h
  rcases csize with _ | n <;> rcases id with _ | i <;>
    simp only [Option.isSome] at hfcs hfid
  · simp [LZ4FrameReader.new, headerBytes, bind, Except.bind, MAGIC,
      readU32_u32le, readU32le_u32le, readU64le_u64le, readU8,
      flags_parse_bits, hms, hfcs, hfid, List.append_assoc]
  · simp [LZ4FrameReader.new, headerBytes, bind, Except.bind, MAGIC,
      readU32_u32le, readU32le_u32le, readU64le_u64le, readU8,
      flags_parse_bits, hms, hfcs, hfid, List.append_assoc,
      hb i _ (hid i (by simp))]
  · simp [LZ4FrameReader.new, headerBytes, bind, Except.bind, MAGIC,
      readU32_u32le, readU32le_u32le, readU64le_u64le, readU8,
      flags_parse_bits, hms, hfcs, hfid, List.append_assoc,
      hb n _ (hcs n (by simp))]
  · simp [LZ4FrameReader.new, headerBytes, bind, Except.bind, MAGIC,
      readU32_u32le, readU32le_u32le, readU64le_u64le, readU8,
      flags_parse_bits, hms, hfcs, hfid, List.append_assoc,
      hb n _ (hcs n (by simp)), hb i _ (hid i (by simp))]

/-- Decoding a frame that consists of a generated header, the zero-length
terminator and (iff the content-checksum flag is set) the hash of the
empty sequence yields zero bytes and no error. -/
theorem decompress_file_empty (f : Flags) (bd v : Nat) (csize id : Option Nat)
    (hms : BlockDescriptor.blockMaxsize? bd = some v)
    (hcs : ∀ n ∈ csize, n < 18446744073709551616)
    (hid : ∀ i ∈ id, i < 4294967296)
    (hfcs : f.content_size = csize.isSome)
    (hfid : f.dictionary_id = id.isSome) :
    decompress_file (headerBytes f bd csize id ++ u32le 0 ++
      (if f.content_checksum then u32le (xxh32 0 []) else [])) =
      Except.ok [] := by
  have hnew := new_headerBytes f bd v csize id
    (u32le 0 ++ (if f.content_checksum then u32le (xxh32 0 []) else []))
    hms hcs hid hfcs hfid
  have hr0 : readU32 (u32le 0) = Except.ok (0, []) := rfl
  rw [List.append_assoc]
  cases hcc : f.content_checksum
  · simp only [hcc, Bool.false_eq_true, if_false, List.append_nil] at hnew
    simp [decompress_file, bind, Except.bind, hnew, hcc, decompressFileLoop,
      LZ4FrameReader.decode_block, readU32_u32le, xxh32, hr0]
  · simp only [hcc, if_true, xxh32, List.foldl_nil] at hnew
    simp [decompress_file, bind, Except.bind, hnew, hcc, decompressFileLoop,
      LZ4FrameReader.decode_block, readU32_u32le, xxh32, hr0]

/-- C7: compressing zero bytes yields exactly the header, one zero-valued
4-byte terminator and, iff the content-checksum setting is on, the 4-byte
hash of the empty sequence; decoding that frame yields zero bytes with no
error. -/
theorem compress_empty_frame (s : CompressionSettings) (csize : Option Nat)
    (bd : Nat) (hbd : BlockDescriptor.new? s.block_size = some bd)
    (hcs : ∀ n ∈ csize, n < 18446744073709551616)
    (hid : ∀ i ∈ s.dictionary_id, i < 4294967296) :
    s.compress_internal [] csize =
      some (headerBytes
          { independent_blocks := s.independent_blocks
            block_checksums := s.block_checksums
            content_size := csize.isSome
            content_checksum := s.content_checksum
            dictionary_id := s.dictionary_id.isSome } bd csize
          s.dictionary_id ++
        u32le 0 ++
        (if s.content_checksum then u32le (xxh32 0 []) else [])) ∧
    decompress_file (headerBytes
          { independent_blocks := s.independent_blocks
            block_checksums := s.block_checksums
            content_size := csize.isSome
            content_checksum := s.content_checksum
            dictionary_id := s.dictionary_id.isSome } bd csize
          s.dictionary_id ++
        u32le 0 ++
        (if s.content_checksum then u32le (xxh32 0 []) else [])) =
      Except.ok [] := by
  constructor
  · simp only [CompressionSettings.compress_internal, hbd]
    cases s.content_checksum <;>
      simp [compressBlockLoop, xxh32, List.append_assoc]
  · exact decompress_file_empty _ bd s.block_size csize s.dictionary_id
      (new_blockMaxsize _ _ hbd) hcs hid rfl rfl

/-- Witness for C7: the empty input under the default settings (4MiB
blocks, content checksum on) compresses to header, terminator and the
4-byte hash of the empty sequence, and decodes back to zero bytes. -/
theorem compress_empty_frame_witness :
    CompressionSettings.default.compress_internal [] none =
      some (headerBytes
          { independent_blocks := true
            block_checksums := false
            content_size := false
            content_checksum := true
            dictionary_id := false } 0x70 none none ++
        u32le 0 ++ u32le 0) ∧
    decompress_file (headerBytes
          { independent_blocks := true
            block_checksums := false
            content_size := false
            content_checksum := true
            dictionary_id := false } 0x70 none none ++
        u32le 0 ++ u32le 0) = Except.ok [] :=
  compress_empty_frame CompressionSettings.default none 0x70 rfl
    (by simp) (by simp [CompressionSettings.default])

end LzFear
